import Mathlib

/-!
# Attendance ledger verification

A shallow embedding of the attendance logic of the repository's variants
(`trail12.py`, `trail9.py`, `trail8.py`, `trail4.py`, `trial1.py`, `trial6.py`)
together with proofs about the check-in/check-out toggle, the manual-mark
upsert, user deletion, attendance editing, CSV export, today-status,
credential storage, login failure messages, and the staff-only deletion rule.

Timestamps, dates and times are kept as the strings the programs store
(`"YYYY-MM-DD HH:MM:SS"`, `"YYYY-MM-DD"`, `"HH:MM:SS"`); SQLite's BINARY text
comparison and Python's string comparison agree with lexicographic order on
these ASCII strings.  External collaborators (the `sha256` digest from
`hashlib`, werkzeug's `generate_password_hash` / `check_password_hash`) are
passed as function parameters, mirroring §6 of the design notes.
-/

/-! ## trail9.py: pandas CSV ledger, QR-scan toggle, plaintext users -/

namespace Trail9

/-- One row of `attendance.csv` (`trail9.py`).  `check_out_time` is written as
the empty string and read back by pandas as `NaN`; across calls (the frame is
reloaded from disk on every operation) an empty check-out is therefore `none`. -/
structure Row where
  username : String
  check_in_time : String
  check_out_time : Option String
deriving DecidableEq, Repr

/-- `df[df["username"]==username]` -/
def user_records (df : List Row) (u : String) : List Row :=
  df.filter (fun r => decide (r.username = u))

/-- `mark_attendance` (trail9.py lines 78-94): if the user has no records or
the *last* record has a non-null check-out, append a fresh open record
("checked in"); otherwise `df.loc[df["username"]==username,"check_out_time"]=now`
sets the check-out column on **every** row of that user ("checked out"). -/
def mark_attendance (df : List Row) (u : String) (now : String) : List Row × String :=
  match (user_records df u).getLast? with
  | none => (df ++ [⟨u, now, none⟩], "checked in")
  | some last =>
    if last.check_out_time.isSome then
      (df ++ [⟨u, now, none⟩], "checked in")
    else
      (df.map (fun r => if r.username = u then { r with check_out_time := some now } else r),
       "checked out")

/-- Number of open (null check-out) records of a user. -/
def open_count (df : List Row) (u : String) : Nat :=
  df.countP (fun r => decide (r.username = u ∧ r.check_out_time = none))

/-- Repeated toggles of a single user, oldest call first. -/
def mark_seq (df : List Row) (u : String) : List String → List Row
  | [] => df
  | t :: ts => mark_seq (mark_attendance df u t).1 u ts

/-- A user record of `users.csv` (trail9.py keeps the password in clear). -/
structure User where
  username : String
  password : String
  role : String
  photo_path : String
  qr_path : String
deriving DecidableEq, Repr

/-- `ensure_default_owner`: if no row has username `owner`, append the default
owner with password `owner123`, stored verbatim. -/
def ensure_default_owner (users : List User) : List User :=
  if users.any (fun r => decide (r.username = "owner")) then users
  else users ++ [⟨"owner", "owner123", "owner", "", ""⟩]

/-- "Add Staff" (trail9.py lines 198-216): reject an existing username,
otherwise append the new user with the password stored verbatim. -/
def add_staff (users : List User) (uname pwd photo qr : String) : List User :=
  if users.any (fun r => decide (r.username = uname)) then users
  else users ++ [⟨uname, pwd, "staff", photo, qr⟩]

/-- Usernames offered by the "Remove Staff" select box: rows with role staff. -/
def staff_list (users : List User) : List String :=
  (users.filter (fun r => decide (r.role = "staff"))).map (·.username)

/-- "Remove Staff" (trail9.py lines 218-227): the selection is the `i`-th entry
of the staff-only list; removal drops every row with that username. -/
def remove_staff (users : List User) (i : Nat) : List User :=
  match (staff_list users).get? i with
  | none => users
  | some sel => users.filter (fun r => decide (¬ r.username = sel))

/-- Observable outcome of the username/password login (trail9.py lines 118-127):
a match logs in; an existing username with a wrong password shows *nothing*
(the inner `if` has no `else`); an unknown username shows "Invalid credentials". -/
inductive LoginOutcome where
  | success (role : String)
  | silent
  | failure (msg : String)
deriving DecidableEq, Repr

/-- `login_page` of trail9.py, reduced to its observable outcome. -/
def login_page (users : List User) (username password : String) : LoginOutcome :=
  match users.find? (fun r => decide (r.username = username)) with
  | some r => if r.password = password then .success r.role else .silent
  | none => .failure "Invalid credentials"

end Trail9

/-! ## trail8.py: streamlit app, salted-hash users, day-keyed manual mark -/

namespace Trail8

/-- The fixed salt constant (`PASSWORD_SALT` in trail8/trail4/trial1/trial6). -/
def PASSWORD_SALT : String := "a_unique_salt_for_your_app"

/-- `hash_password` of trail8.py: SHA-256 of the password concatenated with the
fixed salt.  The digest itself comes from `hashlib` (an external library), so
it is a parameter here. -/
def hash_password (sha256 : String → String) (password : String) : String :=
  sha256 (password ++ PASSWORD_SALT)

/-- A `users.json` entry: the username maps to a stored password string and a role. -/
structure UserRec where
  password : String
  role : String
deriving DecidableEq, Repr

/-- `add_staff` (trail8.py lines 182-200): reject an existing username,
otherwise store `hash_password(new_password)` under role staff. -/
def add_staff (sha256 : String → String) (users : List (String × UserRec))
    (uname pwd : String) : List (String × UserRec) :=
  if users.any (fun kv => decide (kv.1 = uname)) then users
  else users ++ [(uname, ⟨hash_password sha256 pwd, "staff"⟩)]

/-- The staff-only names offered by the "Remove Staff" select box. -/
def staff_users (users : List (String × UserRec)) : List String :=
  (users.filter (fun kv => decide (kv.2.role = "staff"))).map (·.1)

/-- `remove_staff` (trail8.py lines 202-215): pick the `i`-th staff name and
`del users[selected]`.  Nothing else is touched. -/
def remove_staff (users : List (String × UserRec)) (i : Nat) : List (String × UserRec) :=
  match (staff_users users).get? i with
  | none => users
  | some sel => users.filter (fun kv => decide (¬ kv.1 = sel))

/-- One row of trail8's `attendance.csv`: a calendar date (pandas `NaT` is
`none`), check-in/check-out time strings (empty if missing), presence flag. -/
structure Row where
  username : String
  date : Option String
  check_in_time : String
  check_out_time : String
  is_present : Bool
deriving DecidableEq, Repr

/-- `mark_attendance_page` (trail8.py lines 236-269): look for rows with the
selected username and date; if any exist, overwrite the check-in/check-out/
presence fields of the **first** one in place, otherwise append a new row. -/
def mark_attendance_page (df : List Row) (u d ci co : String) (p : Bool) : List Row :=
  match df with
  | [] => [⟨u, some d, ci, co, p⟩]
  | r :: rs =>
    if r.username = u ∧ r.date = some d then
      { r with check_in_time := ci, check_out_time := co, is_present := p } :: rs
    else
      r :: mark_attendance_page rs u d ci co p

/-- Number of rows for a given (username, date) pair. -/
def count_user_date (df : List Row) (u d : String) : Nat :=
  df.countP (fun r => decide (r.username = u ∧ r.date = some d))

/-- `edit_attendance_page` (trail8.py lines 312-330): overwrite the selected
record's check-in/check-out/presence fields unconditionally — there is no
comparison between the new times anywhere on this path. -/
def edit_attendance_page (df : List Row) (idx : Nat) (ci co : String) (p : Bool) : List Row :=
  match df.get? idx with
  | some r => df.set idx { r with check_in_time := ci, check_out_time := co, is_present := p }
  | none => df

/-- The whole mutable state of trail8: the users dict and the attendance frame. -/
structure AppState where
  users : List (String × UserRec)
  attendance_df : List Row
deriving DecidableEq, Repr

/-- `remove_staff` acting on the full state: only the users dict changes; the
attendance frame is not mentioned by the source function at all. -/
def remove_staff_app (s : AppState) (i : Nat) : AppState :=
  { s with users := remove_staff s.users i }

/-- `login` (trail8.py lines 100-104): compare the stored string against the
salted hash of the supplied password; the stored-vs-supplied check. -/
def login (sha256 : String → String) (users : List (String × UserRec))
    (username password : String) : Bool :=
  match users.find? (fun kv => decide (kv.1 = username)) with
  | some kv => kv.2.password = hash_password sha256 password
  | none => false

end Trail8

/-! ## trial1.py: day-keyed mark that rejects duplicates -/

namespace Trial1

/-- A row of trial1's `attendance.csv`: no check-out column at all. -/
structure Row where
  username : String
  date : String
  check_in_time : Option String
  is_present : Bool
deriving DecidableEq, Repr

/-- `show_mark_attendance_page` (trial1.py lines 167-197): if a row for the
(user, today) pair exists, show a warning and change **nothing**; otherwise
append a new row (check-in only when marked present).  The Bool is `true`
when a row was inserted. -/
def show_mark_attendance_page (df : List Row) (u today now : String) (present : Bool) :
    List Row × Bool :=
  if df.any (fun r => decide (r.username = u ∧ r.date = today)) then
    (df, false)
  else
    (df ++ [⟨u, today, if present then some now else none, present⟩], true)

end Trial1

/-! ## trail4.py: login with a single combined condition -/

namespace Trail4

/-- `show_login_page` (trail4.py lines 109-117), reduced to the message shown
on failure: the combined condition
`username and username in users and stored == hash_password(password)`
has a single `else` branch, so every failure shows the same text. -/
def show_login_page (sha256 : String → String) (users : List (String × Trail8.UserRec))
    (username password : String) : Option String :=
  match users.find? (fun kv => decide (kv.1 = username)) with
  | some kv =>
    if username ≠ "" ∧ kv.2.password = Trail8.hash_password sha256 password then none
    else some "Invalid username or password"
  | none => some "Invalid username or password"

end Trail4

/-! ## Bytewise string order

SQLite's default BINARY collation (used by `ORDER BY a.check_in` and the
`substr(...) >= ?` filters of trail12.py) compares TEXT values bytewise;
Python compares `str` values pointwise.  On these ASCII timestamps both agree
with the lexicographic order on the character lists below. -/

/-- Lexicographic strict order on character lists. -/
def chars_lt : List Char → List Char → Bool
  | [], [] => false
  | [], _ :: _ => true
  | _ :: _, [] => false
  | a :: as, b :: bs => if a < b then true else if b < a then false else chars_lt as bs

/-- The companion total order: `l ≤ m` iff not `m < l`. -/
def chars_le (l m : List Char) : Bool := !(chars_lt m l)

/-- Strict string comparison. -/
def str_lt (a b : String) : Bool := chars_lt a.data b.data

/-- Non-strict string comparison. -/
def str_le (a b : String) : Bool := chars_le a.data b.data

/-- `substr(s, 1, 10)` of SQLite / `strftime("%Y-%m-%d")`-length prefix:
the first ten characters. -/
def substr10 (s : String) : String := ⟨s.data.take 10⟩

/-! ## trail12.py: Flask + SQLite variant -/

namespace Trail12

/-- A row of the `attendance` table: `check_in` is NOT NULL, `check_out`
nullable; `id` is the AUTOINCREMENT primary key. -/
structure ARecord where
  id : Nat
  user_id : Nat
  check_in : String
  check_out : Option String
deriving DecidableEq, Repr

/-- A row of the `users` table. -/
structure URecord where
  id : Nat
  username : String
  password_hash : String
  role : String
deriving DecidableEq, Repr

/-- A row of the `messages` table. -/
structure MRecord where
  id : Nat
  to_user_id : Nat
  title : String
  body : String
  created_at : String
deriving DecidableEq, Repr

/-- The SQLite database of trail12.py. -/
structure DB where
  users : List URecord
  attendance : List ARecord
  messages : List MRecord
deriving DecidableEq, Repr

/-- `SELECT * FROM attendance WHERE user_id=? AND check_out IS NULL`. -/
def open_rows (db : DB) (uid : Nat) : List ARecord :=
  db.attendance.filter (fun r => decide (r.user_id = uid ∧ r.check_out = none))

/-- Keep whichever of a row and a candidate has the later `check_in`
(the row wins ties; helper for `most_recent_open`). -/
def better (r : ARecord) : Option ARecord → ARecord
  | none => r
  | some b => if str_le b.check_in r.check_in then r else b

/-- `ORDER BY check_in DESC LIMIT 1`: a row whose `check_in` is maximal among
the given rows (SQLite's BINARY text order is lexicographic on these ASCII
timestamps; the tie order among equal keys is not specified by SQL, the model
keeps the earliest row of the table). -/
def most_recent_open : List ARecord → Option ARecord
  | [] => none
  | r :: rs => some (better r (most_recent_open rs))

/-- The toggle inside `scan_qr` (trail12.py lines 396-416): close the selected
open row (`UPDATE attendance SET check_out=? WHERE id=?`) or insert a fresh
open row (`INSERT INTO attendance (user_id, check_in) VALUES (?, ?)` with the
fresh AUTOINCREMENT id `nid`).  The flash message is reduced to its
checked-in/checked-out kind. -/
def scan_qr (db : DB) (uid : Nat) (now : String) (nid : Nat) : DB × String :=
  match most_recent_open (open_rows db uid) with
  | some row =>
    ({ db with attendance :=
        db.attendance.map (fun r => if r.id = row.id then { r with check_out := some now } else r) },
     "checked out")
  | none =>
    ({ db with attendance := db.attendance ++ [⟨nid, uid, now, none⟩] }, "checked in")

/-- Number of open rows of a user. -/
def open_count (db : DB) (uid : Nat) : Nat := (open_rows db uid).length

/-- A sequence of toggles for one user, oldest first; each call supplies the
timestamp and the fresh row id the insert would use. -/
def scan_seq (db : DB) (uid : Nat) : List (String × Nat) → DB
  | [] => db
  | (t, nid) :: ops => scan_seq (scan_qr db uid t nid).1 uid ops

/-- The delete branch of `manage_staff` (trail12.py lines 345-360): the guard
`SELECT ... FROM users WHERE id=? AND role='staff'` finds a row only for staff
accounts; when it does, the user's attendance rows, messages and the user row
itself are all deleted; otherwise nothing happens. -/
def manage_staff_delete (db : DB) (uid : Nat) : DB :=
  if db.users.any (fun u => decide (u.id = uid ∧ u.role = "staff")) then
    { users := db.users.filter (fun u => decide (¬ u.id = uid)),
      attendance := db.attendance.filter (fun r => decide (¬ r.user_id = uid)),
      messages := db.messages.filter (fun m => decide (¬ m.to_user_id = uid)) }
  else db

/-- The add branch of `manage_staff` (trail12.py lines 333-341): a duplicate
username hits the UNIQUE constraint and nothing is stored; otherwise the row
is inserted with `generate_password_hash(password)` (werkzeug, passed in as
`gph`) and role staff. -/
def manage_staff_add (db : DB) (gph : String → String) (username password : String)
    (nid : Nat) : DB :=
  if db.users.any (fun u => decide (u.username = username)) then db
  else { db with users := db.users ++ [⟨nid, username, gph password, "staff"⟩] }

/-- `login` (trail12.py lines 183-205), reduced to the flash message shown on
failure (`none` = logged in).  `chk` is werkzeug's `check_password_hash`. -/
def login (db : DB) (chk : String → String → Bool) (username password : String) :
    Option String :=
  match db.users.find? (fun u => decide (u.username = username)) with
  | some u => if chk u.password_hash password then none else some "Invalid username or password."
  | none => some "Invalid username or password."

/-- The today-status expression of `owner_dashboard` / `staff_dashboard`
(trail12.py lines 224-242 and 513-520): Present iff some attendance row of the
user has `substr(check_in,1,10)` equal to `today`, where the caller computes
`today = datetime.now().strftime("%Y-%m-%d")` — the **host's local** day. -/
def today_status (db : DB) (uid : Nat) (today : String) : String :=
  if db.attendance.any (fun a => decide (a.user_id = uid ∧ substr10 a.check_in = today)) then
    "Present"
  else "Absent"

/-- The shared WHERE clause of `owner_dashboard` and `export_attendance`
(trail12.py lines 246-262 and 277-314): inclusive bounds on
`substr(check_in,1,10)`, each applied only when the parameter is non-empty. -/
def in_range (from_date to_date : String) (a : ARecord) : Bool :=
  (if from_date = "" then true else str_le from_date (substr10 a.check_in)) &&
  (if to_date = "" then true else str_le (substr10 a.check_in) to_date)

/-- `FROM attendance a JOIN users u ON u.id = a.user_id`. -/
def join_rows (db : DB) : List (URecord × ARecord) :=
  db.attendance.flatMap (fun a =>
    (db.users.filter (fun u => decide (u.id = a.user_id))).map (fun u => (u, a)))

/-- Stable descending insertion by `check_in`, the model of
`ORDER BY a.check_in DESC` (both queries carry the identical clause, so they
share this one definition). -/
def insert_desc (x : URecord × ARecord) : List (URecord × ARecord) → List (URecord × ARecord)
  | [] => [x]
  | y :: ys => if str_lt y.2.check_in x.2.check_in then x :: y :: ys else y :: insert_desc x ys

/-- Sort by `check_in` descending. -/
def sort_desc : List (URecord × ARecord) → List (URecord × ARecord)
  | [] => []
  | x :: xs => insert_desc x (sort_desc xs)

/-- The filtered, ordered join shared (textually identical FROM/WHERE/ORDER)
by the dashboard query and the CSV export. -/
def filtered_sorted (db : DB) (from_date to_date : String) : List (URecord × ARecord) :=
  sort_desc ((join_rows db).filter (fun p => in_range from_date to_date p.2))

/-- The dashboard query result (trail12.py lines 246-262):
`SELECT u.username, a.check_in, a.check_out`. -/
def owner_dashboard_query (db : DB) (from_date to_date : String) :
    List (String × String × Option String) :=
  (filtered_sorted db from_date to_date).map (fun p => (p.1.username, p.2.check_in, p.2.check_out))

/-- The rows written by `export_attendance` (trail12.py lines 302-307):
header then `[username, role, check_in, check_out or ""]` per record. -/
def export_rows (db : DB) (from_date to_date : String) : List (List String) :=
  ["username", "role", "check_in", "check_out"] ::
    (filtered_sorted db from_date to_date).map (fun p =>
      [p.1.username, p.1.role, p.2.check_in, p.2.check_out.getD ""])

end Trail12

/-! ## Standard CSV encoding (Python's `csv.writer` defaults)

`csv.writer` quotes a field iff it contains the delimiter, the quote char or a
line-break character, doubling embedded quotes, and terminates every row with
`"\r\n"`.  The codec below works on `List Char`; the inverse parser is a
three-state scanner. -/

namespace CSV

/-- Characters that force quoting under `csv.writer`'s default dialect. -/
def is_special (c : Char) : Bool :=
  decide (c = ',') || decide (c = '"') || decide (c = '\n') || decide (c = '\r')

/-- Double every embedded quote. -/
def esc : List Char → List Char
  | [] => []
  | c :: cs => if c = '"' then c :: c :: esc cs else c :: esc cs

/-- Quote a field when needed. -/
def encode_field (f : List Char) : List Char :=
  if f.any is_special then '"' :: (esc f ++ ['"']) else f

/-- Comma-join the encoded fields of one row. -/
def encode_line : List (List Char) → List Char
  | [] => []
  | [f] => encode_field f
  | f :: r => encode_field f ++ ',' :: encode_line r

/-- Each row is written followed by `"\r\n"`. -/
def encode : List (List (List Char)) → List Char
  | [] => []
  | r :: rows => encode_line r ++ '\r' :: '\n' :: encode rows

/-- Scanner mode: outside quotes / inside quotes / just saw a quote inside a
quoted section (it closes the section unless doubled). -/
inductive Mode where
  | plain
  | quoted
  | quote_seen
deriving DecidableEq, Repr

/-- Field splitter for a single line; `acc` holds the current field reversed. -/
def parse_line_aux (m : Mode) (acc : List Char) : List Char → List (List Char)
  | [] => [acc.reverse]
  | c :: cs =>
    match m with
    | .plain =>
      if c = ',' then acc.reverse :: parse_line_aux .plain [] cs
      else if c = '"' then parse_line_aux .quoted acc cs
      else parse_line_aux .plain (c :: acc) cs
    | .quoted =>
      if c = '"' then parse_line_aux .quote_seen acc cs
      else parse_line_aux .quoted (c :: acc) cs
    | .quote_seen =>
      if c = '"' then parse_line_aux .quoted ('"' :: acc) cs
      else if c = ',' then acc.reverse :: parse_line_aux .plain [] cs
      else parse_line_aux .plain (c :: acc) cs

/-- Parse one line into its fields. -/
def parse_line (l : List Char) : List (List Char) :=
  parse_line_aux .plain [] l

/-- Split on `"\r\n"`; the Bool records a pending `'\r'`. -/
def split_aux (saw_cr : Bool) (acc : List Char) : List Char → List (List Char)
  | [] =>
    if saw_cr then [('\r' :: acc).reverse]
    else if acc.isEmpty then [] else [acc.reverse]
  | c :: cs =>
    if saw_cr then
      if c = '\n' then acc.reverse :: split_aux false [] cs
      else if c = '\r' then split_aux true ('\r' :: acc) cs
      else split_aux false (c :: '\r' :: acc) cs
    else
      if c = '\r' then split_aux true acc cs
      else split_aux false (c :: acc) cs

/-- Parse a whole CSV byte stream (fields are assumed free of line breaks,
which holds for every stream `encode` produces from such fields). -/
def parse (s : List Char) : List (List (List Char)) :=
  (split_aux false [] s).map parse_line

/-- A field with no line-break characters. -/
@[reducible] def no_break (f : List Char) : Prop := ∀ c ∈ f, ¬ c = '\n' ∧ ¬ c = '\r'

/-- Encode rows of string fields into a CSV byte stream. -/
def encode_strings (rows : List (List String)) : String :=
  ⟨encode (rows.map (fun r => r.map String.data))⟩

/-- Parse a CSV byte stream into rows of string fields. -/
def parse_strings (s : String) : List (List String) :=
  (parse s.data).map (fun r => r.map String.mk)

end CSV

namespace Trail12

/-- The byte stream `export_attendance` responds with (trail12.py lines
302-314): the rows of `export_rows` written by `csv.writer`. -/
def export_attendance (db : DB) (from_date to_date : String) : String :=
  CSV.encode_strings (export_rows db from_date to_date)

end Trail12

namespace Trail9

/-- Invariant used for the trail9 toggle: whenever the user has an open
record, the user's most recent (last) record is open.  States produced by the
trail9 toggle itself always satisfy it; a ledger edited from outside need not. -/
@[reducible] def open_last (df : List Row) (u : String) : Prop :=
  open_count df u = 0 ∨
    ((user_records df u).getLast?.any fun l => l.check_out_time.isNone) = true

end Trail9

namespace CSV

theorem mem_esc {c : Char} {f : List Char} : c ∈ esc f ↔ c ∈ f := by
  induction f with
  | nil => simp [esc]
  | cons d f ih =>
    by_cases hd : d = '"' <;> simp [esc, hd, ih]

theorem cr_not_mem_encode_field {f : List Char} (h : no_break f) :
    ¬ '\r' ∈ encode_field f := by
  unfold encode_field
  split
  · simp only [List.mem_cons, List.mem_append, mem_esc, List.mem_singleton]
    rintro (h1 | h1 | h1)
    · exact absurd h1.symm (by decide)
    · exact (h _ h1).2 rfl
    · exact absurd h1.symm (by decide)
  · exact fun hc => (h _ hc).2 rfl

theorem cr_not_mem_encode_line {r : List (List Char)} (h : ∀ f ∈ r, no_break f) :
    ¬ '\r' ∈ encode_line r := by
  induction r with
  | nil => simp [encode_line]
  | cons f r ih =>
    match r with
    | [] =>
      simpa [encode_line] using cr_not_mem_encode_field (h f (by simp))
    | g :: r =>
      have h1 := cr_not_mem_encode_field (h f (by simp))
      have h2 := ih (fun x hx => h x (by simp [hx]))
      simp only [encode_line, List.mem_append, List.mem_cons]
      rintro (hc | hc | hc)
      · exact h1 hc
      · exact absurd hc.symm (by decide)
      · exact h2 hc

theorem pla_nil (m : Mode) (acc : List Char) :
    parse_line_aux m acc [] = [acc.reverse] := by
  cases m <;> rfl

theorem pla_plain_comma (acc cs : List Char) :
    parse_line_aux .plain acc (',' :: cs) = acc.reverse :: parse_line_aux .plain [] cs := by
  simp [parse_line_aux]

theorem pla_plain_quote (acc cs : List Char) :
    parse_line_aux .plain acc ('"' :: cs) = parse_line_aux .quoted acc cs := by
  simp [parse_line_aux]

theorem pla_plain_other {c : Char} (h1 : ¬ c = ',') (h2 : ¬ c = '"') (acc cs : List Char) :
    parse_line_aux .plain acc (c :: cs) = parse_line_aux .plain (c :: acc) cs := by
  simp [parse_line_aux, h1, h2]

theorem pla_quoted_quote (acc cs : List Char) :
    parse_line_aux .quoted acc ('"' :: cs) = parse_line_aux .quote_seen acc cs := by
  simp [parse_line_aux]

theorem pla_quoted_other {c : Char} (h : ¬ c = '"') (acc cs : List Char) :
    parse_line_aux .quoted acc (c :: cs) = parse_line_aux .quoted (c :: acc) cs := by
  simp [parse_line_aux, h]

theorem pla_qs_quote (acc cs : List Char) :
    parse_line_aux .quote_seen acc ('"' :: cs) = parse_line_aux .quoted ('"' :: acc) cs := by
  simp [parse_line_aux]

theorem pla_qs_comma (acc cs : List Char) :
    parse_line_aux .quote_seen acc (',' :: cs) = acc.reverse :: parse_line_aux .plain [] cs := by
  simp [parse_line_aux]

theorem parse_plain_consume (f : List Char) (hf : ∀ c ∈ f, ¬ c = ',' ∧ ¬ c = '"') :
    ∀ (acc rest : List Char),
      parse_line_aux .plain acc (f ++ rest) = parse_line_aux .plain (f.reverse ++ acc) rest := by
  induction f with
  | nil => intro acc rest; simp
  | cons c f ih =>
    intro acc rest
    have hc := hf c (by simp)
    rw [List.cons_append, pla_plain_other hc.1 hc.2,
      ih (fun x hx => hf x (by simp [hx])) (c :: acc) rest]
    simp

theorem parse_quoted_consume (f : List Char) :
    ∀ (acc rest : List Char),
      parse_line_aux .quoted acc (esc f ++ '"' :: rest) =
        parse_line_aux .quote_seen (f.reverse ++ acc) rest := by
  induction f with
  | nil => intro acc rest; simp [esc, pla_quoted_quote]
  | cons c f ih =>
    intro acc rest
    by_cases hc : c = '"'
    · subst hc
      rw [show esc ('"' :: f) = '"' :: '"' :: esc f by simp [esc],
        List.cons_append, List.cons_append, pla_quoted_quote, pla_qs_quote, ih ('"' :: acc) rest]
      simp
    · rw [show esc (c :: f) = c :: esc f by simp [esc, hc],
        List.cons_append, pla_quoted_other hc, ih (c :: acc) rest]
      simp

theorem not_special_of_not_any {f : List Char} (h : f.any is_special = false) :
    ∀ c ∈ f, ¬ c = ',' ∧ ¬ c = '"' := by
  intro c hc
  have := List.any_eq_false.mp h c hc
  simp [is_special] at this
  exact ⟨this.1.1.1, this.1.1.2⟩

theorem parse_encode_cons (f : List Char) (r : List (List Char)) :
    ∀ acc, parse_line_aux .plain acc (encode_line (f :: r)) = (acc.reverse ++ f) :: r := by
  induction r generalizing f with
  | nil =>
    intro acc
    by_cases hq : f.any is_special
    · rw [show encode_line [f] = encode_field f from rfl, encode_field, if_pos hq,
        show (esc f ++ ['"'] : List Char) = esc f ++ '"' :: [] from rfl,
        pla_plain_quote, parse_quoted_consume f acc [], pla_nil]
      simp
    · rw [show encode_line [f] = encode_field f from rfl, encode_field, if_neg hq,
        show (f : List Char) = f ++ [] by simp,
        parse_plain_consume f (not_special_of_not_any (Bool.eq_false_iff.mpr hq)) acc [],
        pla_nil]
      simp
  | cons g r ih =>
    intro acc
    by_cases hq : f.any is_special
    · rw [show encode_line (f :: g :: r) = encode_field f ++ ',' :: encode_line (g :: r) from rfl,
        encode_field, if_pos hq, List.cons_append, List.append_assoc, List.singleton_append,
        pla_plain_quote, parse_quoted_consume f acc (',' :: encode_line (g :: r)),
        pla_qs_comma, ih g []]
      simp
    · rw [show encode_line (f :: g :: r) = encode_field f ++ ',' :: encode_line (g :: r) from rfl,
        encode_field, if_neg hq,
        parse_plain_consume f (not_special_of_not_any (Bool.eq_false_iff.mpr hq)) acc
          (',' :: encode_line (g :: r)),
        pla_plain_comma, ih g []]
      simp

theorem parse_line_encode_line (f : List Char) (r : List (List Char)) :
    parse_line (encode_line (f :: r)) = f :: r := by
  simpa using parse_encode_cons f r []

theorem sa_false_cr (acc cs : List Char) :
    split_aux false acc ('\r' :: cs) = split_aux true acc cs := by
  simp [split_aux]

theorem sa_false_other {c : Char} (h : ¬ c = '\r') (acc cs : List Char) :
    split_aux false acc (c :: cs) = split_aux false (c :: acc) cs := by
  simp [split_aux, h]

theorem sa_true_nl (acc cs : List Char) :
    split_aux true acc ('\n' :: cs) = acc.reverse :: split_aux false [] cs := by
  simp [split_aux]

theorem split_aux_line (line rest : List Char) (hline : ¬ '\r' ∈ line) :
    ∀ acc, split_aux false acc (line ++ '\r' :: '\n' :: rest) =
      (acc.reverse ++ line) :: split_aux false [] rest := by
  induction line with
  | nil =>
    intro acc
    rw [List.nil_append, sa_false_cr, sa_true_nl]
    simp
  | cons c line ih =>
    intro acc
    have hc : ¬ c = '\r' := fun h => hline (by simp [h])
    rw [List.cons_append, sa_false_other hc, ih (fun h => hline (by simp [h])) (c :: acc)]
    simp

theorem parse_encode (rows : List (List (List Char)))
    (hne : ∀ r ∈ rows, r ≠ [])
    (hnb : ∀ r ∈ rows, ∀ f ∈ r, no_break f) :
    parse (encode rows) = rows := by
  induction rows with
  | nil => rfl
  | cons r rows ih =>
    have hr : ¬ '\r' ∈ encode_line r := cr_not_mem_encode_line (hnb r (by simp))
    obtain ⟨f, r', rfl⟩ : ∃ f r', r = f :: r' := by
      match r, hne r (by simp) with
      | f :: r', _ => exact ⟨f, r', rfl⟩
    unfold parse encode
    rw [split_aux_line _ _ hr []]
    simp only [List.map_cons, List.reverse_nil, List.nil_append]
    rw [parse_line_encode_line]
    have := ih (fun x hx => hne x (by simp [hx])) (fun x hx => hnb x (by simp [hx]))
    unfold parse at this
    rw [this]

theorem parse_strings_encode_strings (rows : List (List String))
    (hne : ∀ r ∈ rows, r ≠ [])
    (hnb : ∀ r ∈ rows, ∀ f ∈ r, no_break f.data) :
    parse_strings (encode_strings rows) = rows := by
  unfold parse_strings encode_strings
  rw [show (String.mk (encode (rows.map (fun r => r.map String.data)))).data =
    encode (rows.map (fun r => r.map String.data)) from rfl]
  rw [parse_encode]
  · rw [List.map_map]
    have hcomp : ((fun r => List.map String.mk r) ∘ fun r : List String => List.map String.data r) =
        fun r : List String => r := by
      funext r
      simp only [Function.comp]
      rw [List.map_map]
      have hid : (String.mk ∘ String.data) = id := funext fun _ => rfl
      rw [hid, List.map_id]
    rw [hcomp, List.map_id']
  · intro r hr
    simp only [List.mem_map] at hr
    obtain ⟨r', hr', rfl⟩ := hr
    simpa using hne r' hr'
  · intro r hr f hf
    simp only [List.mem_map] at hr
    obtain ⟨r', hr', rfl⟩ := hr
    simp only [List.mem_map] at hf
    obtain ⟨f', hf', rfl⟩ := hf
    exact hnb r' hr' f' hf'

end CSV

/-! ## Facts about the bytewise order -/

theorem chars_lt_irrefl : ∀ l : List Char, chars_lt l l = false := by
  intro l
  induction l with
  | nil => rfl
  | cons a as ih => simp [chars_lt, lt_irrefl, ih]

theorem chars_lt_asymm : ∀ {l m : List Char}, chars_lt l m = true → chars_lt m l = false := by
  intro l
  induction l with
  | nil =>
    intro m h
    cases m with
    | nil => simp [chars_lt] at h
    | cons b bs => simp [chars_lt]
  | cons a as ih =>
    intro m h
    cases m with
    | nil => simp [chars_lt] at h
    | cons b bs =>
      simp only [chars_lt] at h ⊢
      by_cases hab : a < b
      · rw [if_neg (lt_asymm hab), if_pos hab]
      · rw [if_neg hab] at h
        by_cases hba : b < a
        · rw [if_pos hba] at h
          simp at h
        · rw [if_neg hba] at h
          rw [if_neg hba, if_neg hab]
          exact ih h

theorem chars_lt_trans : ∀ {l m n : List Char},
    chars_lt l m = true → chars_lt m n = true → chars_lt l n = true := by
  intro l
  induction l with
  | nil =>
    intro m n h1 h2
    cases m with
    | nil => simp [chars_lt] at h1
    | cons b bs =>
      cases n with
      | nil => simp [chars_lt] at h2
      | cons c cs => simp [chars_lt]
  | cons a as ih =>
    intro m n h1 h2
    cases m with
    | nil => simp [chars_lt] at h1
    | cons b bs =>
      cases n with
      | nil => simp [chars_lt] at h2
      | cons c cs =>
        simp only [chars_lt] at h1 h2 ⊢
        by_cases hab : a < b
        · by_cases hbc : b < c
          · rw [if_pos (lt_trans hab hbc)]
          · rw [if_neg hbc] at h2
            by_cases hcb : c < b
            · rw [if_pos hcb] at h2
              simp at h2
            · have hbceq : b = c := le_antisymm (not_lt.mp hcb) (not_lt.mp hbc)
              subst hbceq
              rw [if_pos hab]
        · rw [if_neg hab] at h1
          by_cases hba : b < a
          · rw [if_pos hba] at h1
            simp at h1
          · rw [if_neg hba] at h1
            have haeq : a = b := le_antisymm (not_lt.mp hba) (not_lt.mp hab)
            subst haeq
            by_cases hac : a < c
            · rw [if_pos hac]
            · rw [if_neg hac] at h2 ⊢
              by_cases hca : c < a
              · rw [if_pos hca] at h2
                simp at h2
              · rw [if_neg hca] at h2 ⊢
                exact ih h1 h2

theorem chars_eq_of_not_lt : ∀ {l m : List Char},
    chars_lt l m = false → chars_lt m l = false → l = m := by
  intro l
  induction l with
  | nil =>
    intro m h1 h2
    cases m with
    | nil => rfl
    | cons b bs => simp [chars_lt] at h1
  | cons a as ih =>
    intro m h1 h2
    cases m with
    | nil => simp [chars_lt] at h2
    | cons b bs =>
      simp only [chars_lt] at h1 h2
      by_cases hab : a < b
      · rw [if_pos hab] at h1
        simp at h1
      · rw [if_neg hab] at h1
        by_cases hba : b < a
        · rw [if_pos hba] at h2
          simp at h2
        · rw [if_neg hba] at h1
          rw [if_neg hba, if_neg hab] at h2
          have hchars : a = b := le_antisymm (not_lt.mp hba) (not_lt.mp hab)
          subst hchars
          rw [ih h1 h2]

theorem chars_le_eq_false {l m : List Char} (h : chars_le l m = false) :
    chars_lt m l = true := by
  revert h
  cases hx : chars_lt m l <;> simp [chars_le, hx]

theorem chars_le_eq_true {l m : List Char} (h : chars_le l m = true) :
    chars_lt m l = false := by
  revert h
  cases hx : chars_lt m l <;> simp [chars_le, hx]

theorem chars_le_refl (l : List Char) : chars_le l l = true := by
  simp [chars_le, chars_lt_irrefl]

theorem chars_le_of_not_le {l m : List Char} (h : chars_le l m = false) :
    chars_le m l = true := by
  simp [chars_le, chars_lt_asymm (chars_le_eq_false h)]

theorem chars_le_trans {l m n : List Char} (h1 : chars_le l m = true)
    (h2 : chars_le m n = true) : chars_le l n = true := by
  have hml := chars_le_eq_true h1
  have hnm := chars_le_eq_true h2
  have hnl : chars_lt n l = false := by
    cases hx : chars_lt n l
    · rfl
    · exfalso
      by_cases hmn : chars_lt m n = true
      · rw [chars_lt_trans hmn hx] at hml
        simp at hml
      · have hmn' : chars_lt m n = false := by
          revert hmn
          cases hy : chars_lt m n <;> simp [hy]
        rw [chars_eq_of_not_lt hmn' hnm] at hml
        rw [hx] at hml
        simp at hml
  simp [chars_le, hnl]

theorem str_le_refl (a : String) : str_le a a = true := chars_le_refl a.data

theorem str_le_of_not_le {a b : String} (h : str_le a b = false) : str_le b a = true :=
  chars_le_of_not_le h

theorem str_le_trans {a b c : String} (h1 : str_le a b = true) (h2 : str_le b c = true) :
    str_le a c = true :=
  chars_le_trans h1 h2

namespace Trail12

theorem most_recent_open_eq_none {l : List ARecord} :
    most_recent_open l = none ↔ l = [] := by
  cases l <;> simp [most_recent_open]

theorem most_recent_open_mem : ∀ {l : List ARecord} {r : ARecord},
    most_recent_open l = some r → r ∈ l := by
  intro l
  induction l with
  | nil => intro r h; simp [most_recent_open] at h
  | cons a as ih =>
    intro r h
    simp only [most_recent_open, Option.some.injEq] at h
    cases h2 : most_recent_open as with
    | none =>
      rw [h2] at h
      simp only [better] at h
      simp [← h]
    | some b =>
      rw [h2] at h
      simp only [better] at h
      by_cases hc : str_le b.check_in a.check_in = true
      · rw [if_pos hc] at h
        simp [← h]
      · rw [if_neg hc] at h
        exact List.mem_cons_of_mem a (h ▸ ih h2)

theorem most_recent_open_max : ∀ {l : List ARecord} {r : ARecord},
    most_recent_open l = some r → ∀ s ∈ l, str_le s.check_in r.check_in = true := by
  intro l
  induction l with
  | nil => intro r h; simp [most_recent_open] at h
  | cons a as ih =>
    intro r h s hs
    simp only [most_recent_open, Option.some.injEq] at h
    cases h2 : most_recent_open as with
    | none =>
      rw [h2] at h
      simp only [better] at h
      have hsa : s = a := by
        have has : as = [] := most_recent_open_eq_none.mp h2
        subst has
        simpa using hs
      rw [hsa, h]
      exact str_le_refl _
    | some b =>
      rw [h2] at h
      simp only [better] at h
      rcases List.mem_cons.mp hs with hsa | hsas
      · by_cases hc : str_le b.check_in a.check_in = true
        · rw [if_pos hc] at h
          rw [hsa, h]
          exact str_le_refl _
        · rw [if_neg hc] at h
          rw [hsa, ← h]
          exact str_le_of_not_le (Bool.eq_false_iff.mpr hc)
      · have hsb : str_le s.check_in b.check_in = true := ih h2 s hsas
        by_cases hc : str_le b.check_in a.check_in = true
        · rw [if_pos hc] at h
          rw [← h]
          exact str_le_trans hsb hc
        · rw [if_neg hc] at h
          rw [← h]
          exact hsb

/-- The record predicate counted by `open_count`. -/
theorem open_count_eq_countP (db : DB) (uid : Nat) :
    open_count db uid =
      db.attendance.countP (fun r => decide (r.user_id = uid ∧ r.check_out = none)) := by
  rw [open_count, open_rows, ← List.countP_eq_length_filter]

/-- Closing a row can only shrink the set of open rows. -/
theorem open_count_checkout_le (db : DB) (uid : Nat) (now : String) (rid : Nat) :
    open_count
      { db with attendance :=
          db.attendance.map (fun r => if r.id = rid then { r with check_out := some now } else r) }
      uid ≤ open_count db uid := by
  rw [open_count_eq_countP, open_count_eq_countP]
  simp only [List.countP_map]
  refine List.countP_mono_left (fun r _ => ?_)
  by_cases h : r.id = rid <;> simp [h, Function.comp]

/-- One toggle keeps the per-user number of open rows at most one. -/
theorem scan_qr_open_count (db : DB) (uid : Nat) (now : String) (nid : Nat)
    (h : open_count db uid ≤ 1) :
    open_count (scan_qr db uid now nid).1 uid ≤ 1 := by
  cases hm : most_recent_open (open_rows db uid) with
  | none =>
    have hempty : open_rows db uid = [] := most_recent_open_eq_none.mp hm
    rw [scan_qr, hm]
    simp only
    rw [open_count, open_rows] at *
    simp only [List.filter_append] at *
    rw [hempty]
    simp
  | some row =>
    rw [scan_qr, hm]
    exact le_trans (open_count_checkout_le db uid now row.id) h

/-- Any toggle sequence for one user keeps at most one open row. -/
theorem scan_seq_open_count (uid : Nat) :
    ∀ (ops : List (String × Nat)) (db : DB), open_count db uid ≤ 1 →
      open_count (scan_seq db uid ops) uid ≤ 1 := by
  intro ops
  induction ops with
  | nil => intro db h; exact h
  | cons op ops ih =>
    intro db h
    exact ih _ (scan_qr_open_count db uid op.1 op.2 h)

end Trail12

namespace Trail9

theorem mark_attendance_of_no_records {df : List Row} {u : String} (now : String)
    (hL : (user_records df u).getLast? = none) :
    mark_attendance df u now = (df ++ [⟨u, now, none⟩], "checked in") := by
  unfold mark_attendance
  rw [hL]

theorem mark_attendance_of_last_closed {df : List Row} {u : String} {last : Row} (now : String)
    (hL : (user_records df u).getLast? = some last)
    (hc : last.check_out_time.isSome = true) :
    mark_attendance df u now = (df ++ [⟨u, now, none⟩], "checked in") := by
  unfold mark_attendance
  rw [hL]
  simp [hc]

theorem mark_attendance_of_last_open {df : List Row} {u : String} {last : Row} (now : String)
    (hL : (user_records df u).getLast? = some last)
    (hc : last.check_out_time = none) :
    mark_attendance df u now =
      (df.map (fun r => if r.username = u then { r with check_out_time := some now } else r),
       "checked out") := by
  unfold mark_attendance
  rw [hL]
  simp [hc]

theorem user_records_append (df : List Row) (u : String) (r : Row) :
    user_records (df ++ [r]) u =
      user_records df u ++ if r.username = u then [r] else [] := by
  unfold user_records
  rw [List.filter_append]
  by_cases h : r.username = u <;> simp [h]

theorem open_count_le_user_records (df : List Row) (u : String) :
    open_count df u ≤ (user_records df u).length := by
  unfold open_count user_records
  rw [← List.countP_eq_length_filter]
  refine List.countP_mono_left (fun r _ hr => ?_)
  simp only [decide_eq_true_eq] at hr ⊢
  exact hr.1

theorem open_count_append (df : List Row) (u : String) (r : Row) :
    open_count (df ++ [r]) u =
      open_count df u + (if r.username = u ∧ r.check_out_time = none then 1 else 0) := by
  unfold open_count
  rw [List.countP_append]
  by_cases h : r.username = u ∧ r.check_out_time = none <;> simp [h]

theorem open_count_close_all (df : List Row) (u now : String) :
    open_count
      (df.map (fun r => if r.username = u then { r with check_out_time := some now } else r))
      u = 0 := by
  unfold open_count
  rw [List.countP_map]
  refine List.countP_eq_zero.mpr (fun r _ => ?_)
  by_cases h : r.username = u <;> simp [Function.comp, h]

/-- One trail9 toggle preserves "at most one open record, and it is the last
one" — the strengthening of the at-most-one-open invariant that trail9's
last-record test actually needs. -/
theorem mark_attendance_invariant (df : List Row) (u now : String)
    (h1 : open_count df u ≤ 1) (h2 : open_last df u) :
    open_count (mark_attendance df u now).1 u ≤ 1 ∧
      open_last (mark_attendance df u now).1 u := by
  cases hL : (user_records df u).getLast? with
  | none =>
    have hur : user_records df u = [] := by
      cases hur : user_records df u with
      | nil => rfl
      | cons x xs => rw [hur] at hL; simp at hL
    have hcount : open_count df u = 0 := by
      have := open_count_le_user_records df u
      rw [hur] at this
      exact Nat.le_zero.mp this
    rw [mark_attendance_of_no_records now hL]
    constructor
    · rw [open_count_append]
      simp [hcount]
    · right
      rw [user_records_append]
      simp [hur]
  | some last =>
    by_cases hc : last.check_out_time.isSome = true
    · have hcount : open_count df u = 0 := by
        rcases h2 with h0 | hx
        · exact h0
        · rw [hL] at hx
          simp only [Option.any_some] at hx
          rw [Option.isNone_iff_eq_none] at hx
          rw [hx] at hc
          simp at hc
      rw [mark_attendance_of_last_closed now hL hc]
      constructor
      · rw [open_count_append]
        simp [hcount]
      · right
        rw [user_records_append]
        simp
    · have hc' : last.check_out_time = none := by
        cases hco : last.check_out_time with
        | none => rfl
        | some v => rw [hco] at hc; simp at hc
      rw [mark_attendance_of_last_open now hL hc']
      constructor
      · rw [open_count_close_all]
        exact Nat.zero_le 1
      · left
        exact open_count_close_all df u now

/-- Any trail9 toggle sequence preserves the strengthened invariant. -/
theorem mark_seq_invariant (u : String) :
    ∀ (ts : List String) (df : List Row), open_count df u ≤ 1 → open_last df u →
      open_count (mark_seq df u ts) u ≤ 1 ∧ open_last (mark_seq df u ts) u := by
  intro ts
  induction ts with
  | nil => intro df h1 h2; exact ⟨h1, h2⟩
  | cons t ts ih =>
    intro df h1 h2
    have step := mark_attendance_invariant df u t h1 h2
    exact ih _ step.1 step.2

end Trail9

/-- Entries of a list whose keys are pairwise distinct are determined by
their key. -/
theorem list_key_inj {α β : Type} (f : α → β) :
    ∀ (l : List α), (l.map f).Nodup → ∀ x ∈ l, ∀ y ∈ l, f x = f y → x = y := by
  intro l
  induction l with
  | nil => intro _ x hx; simp at hx
  | cons a as ih =>
    intro hnd x hx y hy hf
    rw [List.map_cons, List.nodup_cons] at hnd
    rcases List.mem_cons.mp hx with rfl | hx' <;> rcases List.mem_cons.mp hy with rfl | hy'
    · rfl
    · exact absurd (by rw [hf]; exact List.mem_map_of_mem f hy') hnd.1
    · exact absurd (by rw [← hf]; exact List.mem_map_of_mem f hx') hnd.1
    · exact ih hnd.2 x hx' y hy' hf

namespace Trail8

theorem mark_of_no_match : ∀ (df : List Row) (u d ci co : String) (p : Bool),
    count_user_date df u d = 0 →
    mark_attendance_page df u d ci co p = df ++ [⟨u, some d, ci, co, p⟩] := by
  intro df
  induction df with
  | nil => intro u d ci co p _; rfl
  | cons r rs ih =>
    intro u d ci co p h
    unfold count_user_date at h
    rw [List.countP_cons] at h
    by_cases hm : r.username = u ∧ r.date = some d
    · simp [hm] at h
    · have hrs : count_user_date rs u d = 0 := by
        unfold count_user_date
        rw [decide_eq_false hm] at h
        simpa using h
      unfold mark_attendance_page
      rw [if_neg hm, ih u d ci co p hrs]
      rfl

theorem mark_of_match : ∀ (df : List Row) (u d ci co : String) (p : Bool),
    0 < count_user_date df u d →
    ∃ l1 r l2, df = l1 ++ r :: l2 ∧
      (∀ x ∈ l1, ¬(x.username = u ∧ x.date = some d)) ∧
      r.username = u ∧ r.date = some d ∧
      mark_attendance_page df u d ci co p =
        l1 ++ { r with check_in_time := ci, check_out_time := co, is_present := p } :: l2 := by
  intro df
  induction df with
  | nil => intro u d ci co p h; simp [count_user_date] at h
  | cons r rs ih =>
    intro u d ci co p h
    by_cases hm : r.username = u ∧ r.date = some d
    · refine ⟨[], r, rs, by simp, by simp, hm.1, hm.2, ?_⟩
      unfold mark_attendance_page
      rw [if_pos hm]
      rfl
    · have hrs : 0 < count_user_date rs u d := by
        unfold count_user_date at h ⊢
        rw [List.countP_cons, decide_eq_false hm] at h
        simpa using h
      obtain ⟨l1, x, l2, hdf, hl1, hx1, hx2, hmark⟩ := ih u d ci co p hrs
      refine ⟨r :: l1, x, l2, by rw [hdf]; rfl, ?_, hx1, hx2, ?_⟩
      · intro y hy
        rcases List.mem_cons.mp hy with rfl | hy'
        · exact hm
        · exact hl1 y hy'
      · unfold mark_attendance_page
        rw [if_neg hm, hmark]
        rfl

theorem mark_count : ∀ (df : List Row) (u d ci co : String) (p : Bool),
    count_user_date (mark_attendance_page df u d ci co p) u d =
      if count_user_date df u d = 0 then 1 else count_user_date df u d := by
  intro df
  induction df with
  | nil =>
    intro u d ci co p
    simp [mark_attendance_page, count_user_date, List.countP_cons]
  | cons r rs ih =>
    intro u d ci co p
    by_cases hm : r.username = u ∧ r.date = some d
    · unfold mark_attendance_page
      rw [if_pos hm]
      unfold count_user_date
      rw [List.countP_cons, List.countP_cons]
      rw [decide_eq_true hm]
      simp [hm.1, hm.2]
    · unfold mark_attendance_page
      rw [if_neg hm]
      unfold count_user_date
      rw [List.countP_cons, List.countP_cons, decide_eq_false hm]
      have := ih u d ci co p
      unfold count_user_date at this
      rw [this]
      by_cases h0 : rs.countP (fun x => decide (x.username = u ∧ x.date = some d)) = 0 <;>
        simp [h0]

end Trail8

/-! ## Claims -/

/-- C1 (counterexample): trail9's `mark_attendance` does **not** behave as the
claimed two-state machine.  In the state below the user has exactly one open
record (the second row); the claim requires the toggle to set `check_out = t`
on exactly that most recently created open record and to leave every other
record unchanged, but the code's column assignment also rewrites the already
closed first row's check-out from 10:00:00 to 12:00:00. -/
theorem C1_counterexample :
    Trail9.open_count
      [⟨"alice", "2024-01-01 09:00:00", some "2024-01-01 10:00:00"⟩,
       ⟨"alice", "2024-01-01 11:00:00", none⟩] "alice" = 1 ∧
    (Trail9.mark_attendance
        [⟨"alice", "2024-01-01 09:00:00", some "2024-01-01 10:00:00"⟩,
         ⟨"alice", "2024-01-01 11:00:00", none⟩] "alice" "2024-01-01 12:00:00").1 =
      [⟨"alice", "2024-01-01 09:00:00", some "2024-01-01 12:00:00"⟩,
       ⟨"alice", "2024-01-01 11:00:00", some "2024-01-01 12:00:00"⟩] ∧
    (⟨"alice", "2024-01-01 09:00:00", some "2024-01-01 10:00:00"⟩ : Trail9.Row) ≠
      ⟨"alice", "2024-01-01 09:00:00", some "2024-01-01 12:00:00"⟩ := by
  refine ⟨by decide, by decide, by decide⟩

/-- C1 (amended): trail12's `scan_qr` toggle behaves as the two-state machine:
with an open row present it closes exactly the selected row — an open row of
maximal check-in — returning "checked out", and with none it appends a fresh
open row returning "checked in", never erroring.  trail9's `mark_attendance`
instead keys on the user's **last** record: it appends a fresh open record
whenever there are no records or the last one is closed, and otherwise sets
`check_out` on **every** record of the user, not only the open one. -/
theorem C1_amended :
    (∀ (db : Trail12.DB) (uid : Nat) (now : String) (nid : Nat) (row : Trail12.ARecord),
      Trail12.most_recent_open (Trail12.open_rows db uid) = some row →
        (Trail12.scan_qr db uid now nid).2 = "checked out" ∧
        row ∈ Trail12.open_rows db uid ∧
        (∀ s ∈ Trail12.open_rows db uid, str_le s.check_in row.check_in = true) ∧
        (Trail12.scan_qr db uid now nid).1.attendance =
          db.attendance.map
            (fun r => if r.id = row.id then { r with check_out := some now } else r)) ∧
    (∀ (db : Trail12.DB) (uid : Nat) (now : String) (nid : Nat),
      Trail12.open_rows db uid = [] →
        (Trail12.scan_qr db uid now nid).2 = "checked in" ∧
        (Trail12.scan_qr db uid now nid).1.attendance =
          db.attendance ++ [⟨nid, uid, now, none⟩]) ∧
    (∀ (df : List Trail9.Row) (u now : String) (last : Trail9.Row),
      (Trail9.user_records df u).getLast? = some last → last.check_out_time = none →
        Trail9.mark_attendance df u now =
          (df.map (fun r => if r.username = u then { r with check_out_time := some now } else r),
           "checked out")) ∧
    (∀ (df : List Trail9.Row) (u now : String),
      ((Trail9.user_records df u).getLast?.all fun l => l.check_out_time.isSome) = true →
        Trail9.mark_attendance df u now = (df ++ [⟨u, now, none⟩], "checked in")) := by
  refine ⟨?_, ?_, ?_, ?_⟩
  · intro db uid now nid row h
    unfold Trail12.scan_qr
    rw [h]
    exact ⟨rfl, Trail12.most_recent_open_mem h, Trail12.most_recent_open_max h, rfl⟩
  · intro db uid now nid h
    have hm : Trail12.most_recent_open (Trail12.open_rows db uid) = none := by
      rw [h]
      rfl
    unfold Trail12.scan_qr
    rw [hm]
    exact ⟨rfl, rfl⟩
  · intro df u now last hL hc
    exact Trail9.mark_attendance_of_last_open now hL hc
  · intro df u now hall
    cases hL : (Trail9.user_records df u).getLast? with
    | none => exact Trail9.mark_attendance_of_no_records now hL
    | some l =>
      rw [hL] at hall
      have hsome : l.check_out_time.isSome = true := by simpa [Option.all] using hall
      exact Trail9.mark_attendance_of_last_closed now hL hsome

/-- C1 (witness): the four behaviors of `C1_amended` at concrete states. -/
theorem C1_witness :
    (Trail12.scan_qr ⟨[], [⟨1, 7, "2024-01-01 09:00:00", none⟩], []⟩ 7
      "2024-01-01 17:00:00" 2).2 = "checked out" ∧
    (Trail12.scan_qr ⟨[], [], []⟩ 7 "2024-01-01 09:00:00" 1).2 = "checked in" ∧
    Trail9.mark_attendance [⟨"bob", "2024-01-01 09:00:00", none⟩] "bob" "2024-01-01 17:00:00" =
      ([⟨"bob", "2024-01-01 09:00:00", some "2024-01-01 17:00:00"⟩], "checked out") ∧
    Trail9.mark_attendance [] "bob" "2024-01-01 09:00:00" =
      ([⟨"bob", "2024-01-01 09:00:00", none⟩], "checked in") := by
  refine ⟨(C1_amended.1 ⟨[], [⟨1, 7, "2024-01-01 09:00:00", none⟩], []⟩ 7
      "2024-01-01 17:00:00" 2 ⟨1, 7, "2024-01-01 09:00:00", none⟩ (by decide)).1,
    (C1_amended.2.1 ⟨[], [], []⟩ 7 "2024-01-01 09:00:00" 1 (by decide)).1, ?_, ?_⟩
  · exact C1_amended.2.2.1 [⟨"bob", "2024-01-01 09:00:00", none⟩] "bob" "2024-01-01 17:00:00"
      ⟨"bob", "2024-01-01 09:00:00", none⟩ rfl rfl
  · exact C1_amended.2.2.2 [] "bob" "2024-01-01 09:00:00" rfl

/-- C2 (counterexample): a single trail9 toggle can take a ledger that has
exactly one open record for the user to one with **two** open records: when
the single open record is not the user's last record, the last-record test
sees a closed record and appends a second open one. -/
theorem C2_counterexample :
    Trail9.open_count
      [⟨"alice", "2024-01-01 09:00:00", none⟩,
       ⟨"alice", "2024-01-01 10:00:00", some "2024-01-01 11:00:00"⟩] "alice" = 1 ∧
    Trail9.open_count
      (Trail9.mark_seq
        [⟨"alice", "2024-01-01 09:00:00", none⟩,
         ⟨"alice", "2024-01-01 10:00:00", some "2024-01-01 11:00:00"⟩]
        "alice" ["2024-01-02 09:00:00"]) "alice" = 2 := by
  exact ⟨by decide, by decide⟩

/-- C2 (amended): trail12's toggle preserves the at-most-one-open invariant
from every state with at most one open row for the user, over any toggle
sequence.  trail9's toggle preserves it only under the additional hypothesis
that the open record, when present, is the user's most recent record
(`Trail9.open_last`); without it the invariant can break (see the
counterexample). -/
theorem C2_amended :
    (∀ (db : Trail12.DB) (uid : Nat) (ops : List (String × Nat)),
      Trail12.open_count db uid ≤ 1 →
        Trail12.open_count (Trail12.scan_seq db uid ops) uid ≤ 1) ∧
    (∀ (df : List Trail9.Row) (u : String) (ts : List String),
      Trail9.open_count df u ≤ 1 → Trail9.open_last df u →
        Trail9.open_count (Trail9.mark_seq df u ts) u ≤ 1) :=
  ⟨fun db uid ops h => Trail12.scan_seq_open_count uid ops db h,
   fun df u ts h1 h2 => (Trail9.mark_seq_invariant u ts df h1 h2).1⟩

/-- C2 (witness): both preservation statements at a concrete two-toggle run. -/
theorem C2_witness :
    Trail12.open_count
      (Trail12.scan_seq ⟨[], [⟨1, 7, "2024-01-01 09:00:00", none⟩], []⟩ 7
        [("2024-01-01 17:00:00", 2), ("2024-01-02 09:00:00", 3)]) 7 ≤ 1 ∧
    Trail9.open_count
      (Trail9.mark_seq [⟨"bob", "2024-01-01 09:00:00", none⟩] "bob"
        ["2024-01-01 17:00:00", "2024-01-02 09:00:00"]) "bob" ≤ 1 :=
  ⟨C2_amended.1 _ 7 _ (by decide), C2_amended.2 _ "bob" _ (by decide) (by decide)⟩

/-- C3 (counterexample): trial1's manual mark is **not** an in-place upsert:
with an existing record for (bob, 2024-01-02) marked absent, marking the same
day present leaves the frame byte-for-byte unchanged (the page only shows an
"already marked" warning), so the record still has `is_present = false`
instead of the claimed updated fields. -/
theorem C3_counterexample :
    Trial1.show_mark_attendance_page [⟨"bob", "2024-01-02", none, false⟩] "bob"
        "2024-01-02" "10:00:00" true =
      ([⟨"bob", "2024-01-02", none, false⟩], false) ∧
    ((Trial1.show_mark_attendance_page [⟨"bob", "2024-01-02", none, false⟩] "bob"
        "2024-01-02" "10:00:00" true).1.get? 0).map (fun r => r.is_present) = some false := by
  exact ⟨by decide, by decide⟩

/-- C3 (amended): the manual mark is keyed on (user, date) and never creates a
duplicate: when no record exists both variants insert exactly one new record,
and when one exists the (user, date) record count is preserved — but only
trail8 updates the existing record's check-in/check-out/presence fields in
place (the first matching row); trial1 rejects the call and leaves the frame
unchanged. -/
theorem C3_amended :
    (∀ (df : List Trail8.Row) (u d ci co : String) (p : Bool),
      Trail8.count_user_date df u d = 0 →
        Trail8.mark_attendance_page df u d ci co p = df ++ [⟨u, some d, ci, co, p⟩]) ∧
    (∀ (df : List Trail8.Row) (u d ci co : String) (p : Bool),
      0 < Trail8.count_user_date df u d →
        ∃ l1 r l2, df = l1 ++ r :: l2 ∧
          (∀ x ∈ l1, ¬(x.username = u ∧ x.date = some d)) ∧
          r.username = u ∧ r.date = some d ∧
          Trail8.mark_attendance_page df u d ci co p =
            l1 ++ { r with check_in_time := ci, check_out_time := co, is_present := p } :: l2) ∧
    (∀ (df : List Trail8.Row) (u d ci co : String) (p : Bool),
      Trail8.count_user_date (Trail8.mark_attendance_page df u d ci co p) u d =
        if Trail8.count_user_date df u d = 0 then 1 else Trail8.count_user_date df u d) ∧
    (∀ (df : List Trial1.Row) (u today now : String) (p : Bool),
      (df.any (fun r => decide (r.username = u ∧ r.date = today)) = true →
        Trial1.show_mark_attendance_page df u today now p = (df, false)) ∧
      (df.any (fun r => decide (r.username = u ∧ r.date = today)) = false →
        Trial1.show_mark_attendance_page df u today now p =
          (df ++ [⟨u, today, if p then some now else none, p⟩], true))) := by
  refine ⟨Trail8.mark_of_no_match, Trail8.mark_of_match, Trail8.mark_count, ?_⟩
  intro df u today now p
  constructor
  · intro h
    unfold Trial1.show_mark_attendance_page
    rw [if_pos h]
  · intro h
    unfold Trial1.show_mark_attendance_page
    rw [if_neg (by rw [h]; simp)]

/-- C3 (witness): `C3_amended` at concrete frames — a fresh insert, an
in-place trail8 update (marking the same day twice keeps one record), and the
two trial1 outcomes. -/
theorem C3_witness :
    Trail8.mark_attendance_page [] "bob" "2024-01-02" "09:00:00" "17:00:00" true =
      [⟨"bob", some "2024-01-02", "09:00:00", "17:00:00", true⟩] ∧
    Trail8.count_user_date
      (Trail8.mark_attendance_page
        (Trail8.mark_attendance_page [] "bob" "2024-01-02" "09:00:00" "17:00:00" true)
        "bob" "2024-01-02" "10:00:00" "18:00:00" true) "bob" "2024-01-02" = 1 ∧
    (∃ l1 r l2,
      ([⟨"bob", some "2024-01-02", "09:00:00", "17:00:00", false⟩] : List Trail8.Row) =
        l1 ++ r :: l2 ∧
      (∀ x ∈ l1, ¬(x.username = "bob" ∧ x.date = some "2024-01-02")) ∧
      r.username = "bob" ∧ r.date = some "2024-01-02" ∧
      Trail8.mark_attendance_page [⟨"bob", some "2024-01-02", "09:00:00", "17:00:00", false⟩]
          "bob" "2024-01-02" "10:00:00" "18:00:00" true =
        l1 ++ { r with check_in_time := "10:00:00", check_out_time := "18:00:00",
                       is_present := true } :: l2) ∧
    Trial1.show_mark_attendance_page [⟨"bob", "2024-01-02", none, false⟩] "bob"
        "2024-01-02" "10:00:00" true =
      ([⟨"bob", "2024-01-02", none, false⟩], false) ∧
    Trial1.show_mark_attendance_page [] "bob" "2024-01-02" "10:00:00" true =
      ([⟨"bob", "2024-01-02", some "10:00:00", true⟩], true) := by
  refine ⟨C3_amended.1 [] "bob" "2024-01-02" "09:00:00" "17:00:00" true (by decide), ?_, ?_, ?_, ?_⟩
  · rw [C3_amended.2.2.1
      (Trail8.mark_attendance_page [] "bob" "2024-01-02" "09:00:00" "17:00:00" true)
      "bob" "2024-01-02" "10:00:00" "18:00:00" true]
    decide
  · exact C3_amended.2.1 [⟨"bob", some "2024-01-02", "09:00:00", "17:00:00", false⟩]
      "bob" "2024-01-02" "10:00:00" "18:00:00" true (by decide)
  · exact (C3_amended.2.2.2 [⟨"bob", "2024-01-02", none, false⟩] "bob"
      "2024-01-02" "10:00:00" true).1 (by decide)
  · have := (C3_amended.2.2.2 [] "bob" "2024-01-02" "10:00:00" true).2 (by decide)
    simpa using this

/-- C4 (counterexample): trail8's staff removal does not cascade — after
removing bob (the only staff entry, index 0) the users dict is empty but
bob's attendance row is still in the ledger, so a subsequent query does see a
row referencing the deleted user. -/
theorem C4_counterexample :
    (Trail8.remove_staff_app
      ⟨[("bob", ⟨"h", "staff"⟩)], [⟨"bob", some "2024-01-02", "09:00:00", "", true⟩]⟩ 0).users =
      [] ∧
    (Trail8.remove_staff_app
      ⟨[("bob", ⟨"h", "staff"⟩)], [⟨"bob", some "2024-01-02", "09:00:00", "", true⟩]⟩
      0).attendance_df =
      [⟨"bob", some "2024-01-02", "09:00:00", "", true⟩] ∧
    (Trail8.remove_staff_app
      ⟨[("bob", ⟨"h", "staff"⟩)], [⟨"bob", some "2024-01-02", "09:00:00", "", true⟩]⟩
      0).attendance_df.any (fun r => decide (r.username = "bob")) = true := by
  exact ⟨by decide, by decide, by decide⟩

/-- C4 (amended): only trail12's delete cascades: deleting a staff user
removes every attendance row, every message and the user row referencing that
id (and a delete aimed at a non-staff id changes nothing); trail8's
`remove_staff` deletes only the users entry and leaves the attendance frame
untouched. -/
theorem C4_amended :
    (∀ (db : Trail12.DB) (uid : Nat),
      db.users.any (fun u => decide (u.id = uid ∧ u.role = "staff")) = true →
        (∀ a ∈ (Trail12.manage_staff_delete db uid).attendance, ¬ a.user_id = uid) ∧
        (∀ m ∈ (Trail12.manage_staff_delete db uid).messages, ¬ m.to_user_id = uid) ∧
        (∀ u ∈ (Trail12.manage_staff_delete db uid).users, ¬ u.id = uid)) ∧
    (∀ (db : Trail12.DB) (uid : Nat),
      db.users.any (fun u => decide (u.id = uid ∧ u.role = "staff")) = false →
        Trail12.manage_staff_delete db uid = db) ∧
    (∀ (s : Trail8.AppState) (i : Nat),
      (Trail8.remove_staff_app s i).attendance_df = s.attendance_df) := by
  refine ⟨?_, ?_, ?_⟩
  · intro db uid h
    unfold Trail12.manage_staff_delete
    rw [if_pos h]
    refine ⟨?_, ?_, ?_⟩ <;>
      · intro x hx
        have := List.of_mem_filter hx
        simpa using this
  · intro db uid h
    unfold Trail12.manage_staff_delete
    rw [if_neg (by rw [h]; simp)]
  · intro s i
    rfl

/-- C4 (witness): `C4_amended` at a concrete database and app state. -/
theorem C4_witness :
    (∀ a ∈ (Trail12.manage_staff_delete
        ⟨[⟨1, "boss", "h1", "owner"⟩, ⟨2, "bob", "h2", "staff"⟩],
         [⟨1, 2, "2024-01-01 09:00:00", none⟩], [⟨1, 2, "t", "b", "2024-01-01 10:00:00"⟩]⟩
        2).attendance, ¬ a.user_id = 2) ∧
    Trail12.manage_staff_delete
        ⟨[⟨1, "boss", "h1", "owner"⟩], [⟨1, 1, "2024-01-01 09:00:00", none⟩], []⟩ 1 =
      ⟨[⟨1, "boss", "h1", "owner"⟩], [⟨1, 1, "2024-01-01 09:00:00", none⟩], []⟩ ∧
    (Trail8.remove_staff_app
      ⟨[("bob", ⟨"h", "staff"⟩)], [⟨"bob", some "2024-01-02", "09:00:00", "", true⟩]⟩
      0).attendance_df =
      [⟨"bob", some "2024-01-02", "09:00:00", "", true⟩] :=
  ⟨(C4_amended.1 _ 2 (by decide)).1,
   C4_amended.2.1 _ 1 (by decide),
   C4_amended.2.2 _ 0⟩

/-- C5 (counterexample): the claimed `InvalidTimeRange` failure does not
exist: editing a record to check-in 10:00:00 and check-out 09:00:00 — a
check-out strictly earlier than the check-in — succeeds and overwrites the
record, instead of failing and leaving the ledger unchanged. -/
theorem C5_counterexample :
    Trail8.edit_attendance_page [⟨"bob", some "2024-01-02", "08:00:00", "08:30:00", true⟩] 0
        "10:00:00" "09:00:00" true =
      [⟨"bob", some "2024-01-02", "10:00:00", "09:00:00", true⟩] ∧
    Trail8.edit_attendance_page [⟨"bob", some "2024-01-02", "08:00:00", "08:30:00", true⟩] 0
        "10:00:00" "09:00:00" true ≠
      [⟨"bob", some "2024-01-02", "08:00:00", "08:30:00", true⟩] ∧
    str_lt "09:00:00" "10:00:00" = true := by
  exact ⟨by decide, by decide, by decide⟩

/-- C5 (amended): `edit` is an unconditional field overwrite with **no**
validation at all: for any new check-in/check-out values — also when the
check-out is earlier than the check-in — the selected record's three fields
are replaced and every other record and the ledger length are unchanged. -/
theorem C5_amended (df : List Trail8.Row) (idx : Nat) (ci co : String) (p : Bool)
    (r : Trail8.Row) (h : df.get? idx = some r) :
    (Trail8.edit_attendance_page df idx ci co p).get? idx =
      some { r with check_in_time := ci, check_out_time := co, is_present := p } ∧
    (∀ j, ¬ j = idx → (Trail8.edit_attendance_page df idx ci co p).get? j = df.get? j) ∧
    (Trail8.edit_attendance_page df idx ci co p).length = df.length := by
  unfold Trail8.edit_attendance_page
  rw [h]
  refine ⟨?_, ?_, ?_⟩
  · rw [List.get?_set_eq, h]
    rfl
  · intro j hj
    exact List.get?_set_ne _ _ (fun he => hj he.symm)
  · exact List.length_set df idx _

/-- C5 (witness): `C5_amended` applied to the 09:00-before-10:00 edit. -/
theorem C5_witness :
    (Trail8.edit_attendance_page [⟨"bob", some "2024-01-02", "08:00:00", "08:30:00", true⟩] 0
        "10:00:00" "09:00:00" true).get? 0 =
      some ⟨"bob", some "2024-01-02", "10:00:00", "09:00:00", true⟩ ∧
    (Trail8.edit_attendance_page [⟨"bob", some "2024-01-02", "08:00:00", "08:30:00", true⟩] 0
        "10:00:00" "09:00:00" true).length = 1 :=
  ⟨(C5_amended [⟨"bob", some "2024-01-02", "08:00:00", "08:30:00", true⟩] 0
      "10:00:00" "09:00:00" true ⟨"bob", some "2024-01-02", "08:00:00", "08:30:00", true⟩ rfl).1,
   (C5_amended [⟨"bob", some "2024-01-02", "08:00:00", "08:30:00", true⟩] 0
      "10:00:00" "09:00:00" true ⟨"bob", some "2024-01-02", "08:00:00", "08:30:00", true⟩ rfl).2.2⟩

/-- No row written by the export is empty: the header has four fields and so
has every data row. -/
theorem export_rows_ne_nil (db : Trail12.DB) (from_date to_date : String) :
    ∀ r ∈ Trail12.export_rows db from_date to_date, r ≠ [] := by
  intro r hr
  unfold Trail12.export_rows at hr
  rcases List.mem_cons.mp hr with rfl | hr'
  · simp
  · obtain ⟨p, _, rfl⟩ := List.mem_map.mp hr'
    simp

/-- C6: the CSV export round-trips.  Parsing the byte stream back (standard
CSV escaping, commas and quotes included) yields exactly the header
`[username, role, check_in, check_out]` followed by one row per record with
the empty string for a null check-out; and the data rows project to the very
(username, check_in, check_out) tuples the dashboard query returns — in the
same order, because export and query share the identical inclusive
`substr(check_in,1,10)` filter and `ORDER BY check_in DESC` clause (one
definition, `Trail12.filtered_sorted`, in this embedding).  The only caveat
is the spec's own null-rendering convention: a null check-out reads back as
the empty string, hence the `Option.getD ""` on the query side.  Fields are
assumed line-break free, which csv.writer's quoting would otherwise handle
across lines. -/
theorem C6_export_round_trip (db : Trail12.DB) (from_date to_date : String)
    (hnb : ∀ row ∈ Trail12.export_rows db from_date to_date, ∀ f ∈ row, CSV.no_break f.data) :
    CSV.parse_strings (Trail12.export_attendance db from_date to_date) =
      Trail12.export_rows db from_date to_date ∧
    (Trail12.export_rows db from_date to_date).head? =
      some ["username", "role", "check_in", "check_out"] ∧
    (Trail12.export_rows db from_date to_date).tail.map
        (fun row => (row.get? 0, row.get? 2, row.get? 3)) =
      (Trail12.owner_dashboard_query db from_date to_date).map
        (fun q => (some q.1, some q.2.1, some (q.2.2.getD ""))) := by
  refine ⟨?_, ?_, ?_⟩
  · exact CSV.parse_strings_encode_strings _ (export_rows_ne_nil db from_date to_date) hnb
  · rfl
  · unfold Trail12.export_rows Trail12.owner_dashboard_query
    simp only [List.tail_cons]
    rw [List.map_map, List.map_map]
    rfl

/-- C6 (witness): the round trip at a concrete database whose username holds
both a comma and a quote, over an unbounded filter, with one open and one
closed record (so the null-to-empty rendering and the descending order are
both exercised). -/
theorem C6_witness :
    CSV.parse_strings (Trail12.export_attendance
        ⟨[⟨7, "a,b\"c", "h", "staff"⟩],
         [⟨1, 7, "2024-01-01 09:00:00", none⟩,
          ⟨2, 7, "2024-01-02 10:00:00", some "2024-01-02 11:00:00"⟩], []⟩ "" "") =
      Trail12.export_rows
        ⟨[⟨7, "a,b\"c", "h", "staff"⟩],
         [⟨1, 7, "2024-01-01 09:00:00", none⟩,
          ⟨2, 7, "2024-01-02 10:00:00", some "2024-01-02 11:00:00"⟩], []⟩ "" "" ∧
    (Trail12.export_rows
        ⟨[⟨7, "a,b\"c", "h", "staff"⟩],
         [⟨1, 7, "2024-01-01 09:00:00", none⟩,
          ⟨2, 7, "2024-01-02 10:00:00", some "2024-01-02 11:00:00"⟩], []⟩ "" "").head? =
      some ["username", "role", "check_in", "check_out"] ∧
    (Trail12.export_rows
        ⟨[⟨7, "a,b\"c", "h", "staff"⟩],
         [⟨1, 7, "2024-01-01 09:00:00", none⟩,
          ⟨2, 7, "2024-01-02 10:00:00", some "2024-01-02 11:00:00"⟩], []⟩ "" "").tail.map
        (fun row => (row.get? 0, row.get? 2, row.get? 3)) =
      (Trail12.owner_dashboard_query
        ⟨[⟨7, "a,b\"c", "h", "staff"⟩],
         [⟨1, 7, "2024-01-01 09:00:00", none⟩,
          ⟨2, 7, "2024-01-02 10:00:00", some "2024-01-02 11:00:00"⟩], []⟩ "" "").map
        (fun q => (some q.1, some q.2.1, some (q.2.2.getD ""))) :=
  C6_export_round_trip
    ⟨[⟨7, "a,b\"c", "h", "staff"⟩],
     [⟨1, 7, "2024-01-01 09:00:00", none⟩,
      ⟨2, 7, "2024-01-02 10:00:00", some "2024-01-02 11:00:00"⟩], []⟩ "" "" (by decide)

/-- C7 (counterexample): `today_status` depends on the execution host's local
day, not on a configured reference timezone — trail12 computes `today` with a
bare `datetime.now()`.  With the single record below (2024-01-01 00:30 in
India, i.e. 2023-12-31 19:00 UTC), a host whose local date is 2024-01-01
reports Present while a host at the very same instant whose local date is
still 2023-12-31 reports Absent. -/
theorem C7_counterexample :
    Trail12.today_status ⟨[], [⟨1, 7, "2024-01-01 00:30:00", none⟩], []⟩ 7 "2024-01-01" =
      "Present" ∧
    Trail12.today_status ⟨[], [⟨1, 7, "2024-01-01 00:30:00", none⟩], []⟩ 7 "2023-12-31" =
      "Absent" := by
  exact ⟨by decide, by decide⟩

/-- C7 (amended): `today_status` returns Present iff some attendance record of
the user has a check-in whose day prefix equals `today` — where `today` is
the day-string the caller computes from the **host's local** clock
(`datetime.now()`); no fixed reference timezone exists in trail12. -/
theorem C7_amended (db : Trail12.DB) (uid : Nat) (today : String) :
    Trail12.today_status db uid today = "Present" ↔
      ∃ a ∈ db.attendance, a.user_id = uid ∧ substr10 a.check_in = today := by
  have hiff :
      (db.attendance.any (fun a => decide (a.user_id = uid ∧ substr10 a.check_in = today)) =
        true) ↔
      ∃ a ∈ db.attendance, a.user_id = uid ∧ substr10 a.check_in = today := by
    rw [List.any_eq_true]
    simp
  unfold Trail12.today_status
  by_cases h : db.attendance.any
      (fun a => decide (a.user_id = uid ∧ substr10 a.check_in = today)) = true
  · rw [if_pos h]
    exact ⟨fun _ => hiff.mp h, fun _ => rfl⟩
  · rw [if_neg h]
    constructor
    · intro hx
      exact absurd hx (by decide)
    · intro hex
      exact absurd (hiff.mpr hex) h

/-- C8 (counterexample): trail9 stores plaintext passwords.  The bootstrap
owner is stored with the literal password `owner123`, and a freshly added
staff user's stored credential is exactly the plaintext password supplied. -/
theorem C8_counterexample :
    Trail9.ensure_default_owner [] = [⟨"owner", "owner123", "owner", "", ""⟩] ∧
    (Trail9.add_staff [] "bob" "hunter2" "" "").map (fun r => r.password) = ["hunter2"] := by
  exact ⟨by decide, by decide⟩

/-- C8 (amended): on a fresh username, trail12 stores
`generate_password_hash(password)` (werkzeug's salted hash, the parameter
`gph`) and trail8 stores `sha256(password ++ PASSWORD_SALT)` — a salted hash
with a fixed per-install salt — but trail9 stores the plaintext password
itself, so "no user record ever holds a plaintext password" fails for the
repository as a whole. -/
theorem C8_amended :
    (∀ (db : Trail12.DB) (gph : String → String) (username password : String) (nid : Nat),
      db.users.any (fun u => decide (u.username = username)) = false →
        (Trail12.manage_staff_add db gph username password nid).users =
          db.users ++ [⟨nid, username, gph password, "staff"⟩]) ∧
    (∀ (sha256 : String → String) (users : List (String × Trail8.UserRec)) (uname pwd : String),
      users.any (fun kv => decide (kv.1 = uname)) = false →
        Trail8.add_staff sha256 users uname pwd =
          users ++ [(uname, ⟨sha256 (pwd ++ Trail8.PASSWORD_SALT), "staff"⟩)]) ∧
    (∀ (users : List Trail9.User) (uname pwd photo qr : String),
      users.any (fun r => decide (r.username = uname)) = false →
        Trail9.add_staff users uname pwd photo qr = users ++ [⟨uname, pwd, "staff", photo, qr⟩]) := by
  refine ⟨?_, ?_, ?_⟩
  · intro db gph username password nid h
    unfold Trail12.manage_staff_add
    rw [if_neg (by rw [h]; simp)]
  · intro sha256 users uname pwd h
    unfold Trail8.add_staff
    rw [if_neg (by rw [h]; simp)]
    rfl
  · intro users uname pwd photo qr h
    unfold Trail9.add_staff
    rw [if_neg (by rw [h]; simp)]

/-- C8 (witness): `C8_amended` at empty stores with a concrete digest
stand-in for the external hash functions. -/
theorem C8_witness :
    (Trail12.manage_staff_add ⟨[], [], []⟩ (fun st => st ++ "#h") "bob" "pw1" 1).users =
      [⟨1, "bob", "pw1#h", "staff"⟩] ∧
    Trail8.add_staff (fun st => st ++ "#h") [] "bob" "pw1" =
      [("bob", ⟨"pw1" ++ Trail8.PASSWORD_SALT ++ "#h", "staff"⟩)] ∧
    Trail9.add_staff [] "bob" "pw1" "" "" = [⟨"bob", "pw1", "staff", "", ""⟩] := by
  refine ⟨?_, ?_, ?_⟩
  · have := C8_amended.1 ⟨[], [], []⟩ (fun st => st ++ "#h") "bob" "pw1" 1 (by decide)
    simpa using this
  · have := C8_amended.2.1 (fun st => st ++ "#h") [] "bob" "pw1" (by decide)
    simpa [Trail8.hash_password] using this
  · exact C8_amended.2.2 [] "bob" "pw1" "" "" (by decide)

/-- C9 (counterexample): trail9's two failure modes are observably different:
an unknown username shows "Invalid credentials" while an existing username
with a wrong password shows nothing at all (the inner `if` has no `else`), so
a caller **can** tell whether the username exists. -/
theorem C9_counterexample :
    Trail9.login_page [⟨"alice", "pw", "staff", "", ""⟩] "bob" "x" =
      .failure "Invalid credentials" ∧
    Trail9.login_page [⟨"alice", "pw", "staff", "", ""⟩] "alice" "wrong" = .silent ∧
    Trail9.LoginOutcome.failure "Invalid credentials" ≠ Trail9.LoginOutcome.silent := by
  exact ⟨by decide, by decide, by decide⟩

/-- C9 (amended): trail12 and trail4 do show one identical failure message
whether the username is unknown or the password wrong ("Invalid username or
password." resp. "Invalid username or password"); trail9 does not — it shows
"Invalid credentials" exactly when the username is unknown and stays silent
on a wrong password, revealing username existence. -/
theorem C9_amended :
    (∀ (db : Trail12.DB) (chk : String → String → Bool) (username password : String),
      (db.users.find? (fun u => decide (u.username = username)) = none →
        Trail12.login db chk username password = some "Invalid username or password.") ∧
      (∀ u, db.users.find? (fun x => decide (x.username = username)) = some u →
        chk u.password_hash password = false →
        Trail12.login db chk username password = some "Invalid username or password.")) ∧
    (∀ (sha256 : String → String) (users : List (String × Trail8.UserRec))
        (username password : String),
      (users.find? (fun kv => decide (kv.1 = username)) = none →
        Trail4.show_login_page sha256 users username password =
          some "Invalid username or password") ∧
      (∀ kv, users.find? (fun x => decide (x.1 = username)) = some kv →
        ¬(username ≠ "" ∧ kv.2.password = Trail8.hash_password sha256 password) →
        Trail4.show_login_page sha256 users username password =
          some "Invalid username or password")) ∧
    (∀ (users : List Trail9.User) (username password : String),
      (users.find? (fun r => decide (r.username = username)) = none →
        Trail9.login_page users username password = .failure "Invalid credentials") ∧
      (∀ r, users.find? (fun x => decide (x.username = username)) = some r →
        ¬ r.password = password →
        Trail9.login_page users username password = .silent)) := by
  refine ⟨?_, ?_, ?_⟩
  · intro db chk username password
    constructor
    · intro h
      unfold Trail12.login
      rw [h]
    · intro u hu hc
      unfold Trail12.login
      rw [hu]
      simp [hc]
  · intro sha256 users username password
    constructor
    · intro h
      unfold Trail4.show_login_page
      rw [h]
    · intro kv hkv hc
      unfold Trail4.show_login_page
      rw [hkv]
      simp [hc]
  · intro users username password
    constructor
    · intro h
      unfold Trail9.login_page
      rw [h]
    · intro r hr hc
      unfold Trail9.login_page
      rw [hr]
      simp [hc]

/-- C9 (witness): both failure modes of each variant at a concrete store. -/
theorem C9_witness :
    Trail12.login ⟨[⟨1, "alice", "H", "staff"⟩], [], []⟩ (fun _ _ => false) "bob" "x" =
      some "Invalid username or password." ∧
    Trail12.login ⟨[⟨1, "alice", "H", "staff"⟩], [], []⟩ (fun _ _ => false) "alice" "x" =
      some "Invalid username or password." ∧
    Trail4.show_login_page (fun st => st ++ "#h") [("alice", ⟨"H", "staff"⟩)] "bob" "x" =
      some "Invalid username or password" ∧
    Trail4.show_login_page (fun st => st ++ "#h") [("alice", ⟨"H", "staff"⟩)] "alice" "x" =
      some "Invalid username or password" ∧
    Trail9.login_page [⟨"alice", "pw", "staff", "", ""⟩] "bob" "x" =
      .failure "Invalid credentials" ∧
    Trail9.login_page [⟨"alice", "pw", "staff", "", ""⟩] "alice" "wrong" = .silent := by
  refine ⟨?_, ?_, ?_, ?_, ?_, ?_⟩
  · exact (C9_amended.1 ⟨[⟨1, "alice", "H", "staff"⟩], [], []⟩ (fun _ _ => false) "bob" "x").1
      (by decide)
  · exact (C9_amended.1 ⟨[⟨1, "alice", "H", "staff"⟩], [], []⟩ (fun _ _ => false) "alice" "x").2
      ⟨1, "alice", "H", "staff"⟩ (by decide) rfl
  · exact (C9_amended.2.1 (fun st => st ++ "#h") [("alice", ⟨"H", "staff"⟩)] "bob" "x").1
      (by decide)
  · exact (C9_amended.2.1 (fun st => st ++ "#h") [("alice", ⟨"H", "staff"⟩)] "alice" "x").2
      ("alice", ⟨"H", "staff"⟩) (by decide) (by decide)
  · exact (C9_amended.2.2 [⟨"alice", "pw", "staff", "", ""⟩] "bob" "x").1 (by decide)
  · exact (C9_amended.2.2 [⟨"alice", "pw", "staff", "", ""⟩] "alice" "wrong").2
      ⟨"alice", "pw", "staff", "", ""⟩ (by decide) (by decide)

/-- C10: the public delete/remove-staff operation never removes an owner: in
trail12 the guard `WHERE id=? AND role='staff'` fires only for staff ids and
the cascade fires only then, so every owner row, its attendance and its
messages survive any delete call; in trail9 and trail8 the selectable set is
the role-staff list, so with distinct usernames (resp. dict keys, which a
dict guarantees) an owner entry survives any removal.  Keys are assumed
duplicate-free, which the UNIQUE column, the duplicate-username guard and the
dict structure give every reachable store. -/
theorem C10_staff_only_deletion :
    (∀ (db : Trail12.DB) (uid : Nat), (db.users.map (fun u => u.id)).Nodup →
      ∀ u ∈ db.users, u.role = "owner" →
        u ∈ (Trail12.manage_staff_delete db uid).users ∧
        (∀ a ∈ db.attendance, a.user_id = u.id →
          a ∈ (Trail12.manage_staff_delete db uid).attendance) ∧
        (∀ m ∈ db.messages, m.to_user_id = u.id →
          m ∈ (Trail12.manage_staff_delete db uid).messages)) ∧
    (∀ (users : List Trail9.User) (i : Nat), (users.map (fun r => r.username)).Nodup →
      ∀ u ∈ users, u.role = "owner" → u ∈ Trail9.remove_staff users i) ∧
    (∀ (users : List (String × Trail8.UserRec)) (i : Nat), (users.map (fun kv => kv.1)).Nodup →
      ∀ kv ∈ users, kv.2.role = "owner" → kv ∈ Trail8.remove_staff users i) := by
  refine ⟨?_, ?_, ?_⟩
  · intro db uid hnd u hu hrole
    unfold Trail12.manage_staff_delete
    by_cases hany : db.users.any (fun x => decide (x.id = uid ∧ x.role = "staff")) = true
    · rw [if_pos hany]
      obtain ⟨srec, hs_mem, hs⟩ := List.any_eq_true.mp hany
      rw [decide_eq_true_eq] at hs
      have hneq : ¬ u.id = uid := by
        intro he
        have heq : u = srec := list_key_inj (fun x => x.id) db.users hnd u hu srec hs_mem
          (by show u.id = srec.id; rw [he, hs.1])
        rw [heq, hs.2] at hrole
        simp at hrole
      refine ⟨?_, ?_, ?_⟩
      · exact List.mem_filter.mpr ⟨hu, by simpa using hneq⟩
      · intro a ha hae
        exact List.mem_filter.mpr ⟨ha, by simp [hae, hneq]⟩
      · intro m hm hme
        exact List.mem_filter.mpr ⟨hm, by simp [hme, hneq]⟩
    · rw [if_neg hany]
      exact ⟨hu, fun a ha _ => ha, fun m hm _ => hm⟩
  · intro users i hnd u hu hrole
    unfold Trail9.remove_staff
    cases hg : (Trail9.staff_list users).get? i with
    | none => exact hu
    | some sel =>
      have hmem : sel ∈ Trail9.staff_list users := List.get?_mem hg
      unfold Trail9.staff_list at hmem
      obtain ⟨sr, hsr_mem, hsr_name⟩ := List.mem_map.mp hmem
      have hsr_name' : sr.username = sel := hsr_name
      have hsr_mem' : sr ∈ users := List.mem_of_mem_filter hsr_mem
      have hsr_role : sr.role = "staff" := by
        have := List.of_mem_filter hsr_mem
        simpa using this
      apply List.mem_filter.mpr
      refine ⟨hu, ?_⟩
      simp only [decide_eq_true_eq]
      intro hname
      have heq : u = sr := list_key_inj (fun r => r.username) users hnd u hu sr hsr_mem'
        (by show u.username = sr.username; rw [hname, hsr_name'])
      rw [heq, hsr_role] at hrole
      simp at hrole
  · intro users i hnd kv hkv hrole
    unfold Trail8.remove_staff
    cases hg : (Trail8.staff_users users).get? i with
    | none => exact hkv
    | some sel =>
      have hmem : sel ∈ Trail8.staff_users users := List.get?_mem hg
      unfold Trail8.staff_users at hmem
      obtain ⟨sr, hsr_mem, hsr_name⟩ := List.mem_map.mp hmem
      have hsr_name' : sr.1 = sel := hsr_name
      have hsr_mem' : sr ∈ users := List.mem_of_mem_filter hsr_mem
      have hsr_role : sr.2.role = "staff" := by
        have := List.of_mem_filter hsr_mem
        simpa using this
      apply List.mem_filter.mpr
      refine ⟨hkv, ?_⟩
      simp only [decide_eq_true_eq]
      intro hname
      have heq : kv = sr := list_key_inj (fun x => x.1) users hnd kv hkv sr hsr_mem'
        (by show kv.1 = sr.1; rw [hname, hsr_name'])
      rw [heq, hsr_role] at hrole
      simp at hrole

/-- C10 (witness): an owner survives a concrete staff deletion in each
variant, together with the owner's attendance and message rows in trail12. -/
theorem C10_witness :
    (⟨1, "boss", "h1", "owner"⟩ : Trail12.URecord) ∈
      (Trail12.manage_staff_delete
        ⟨[⟨1, "boss", "h1", "owner"⟩, ⟨2, "bob", "h2", "staff"⟩],
         [⟨1, 1, "2024-01-01 08:00:00", none⟩, ⟨2, 2, "2024-01-01 09:00:00", none⟩],
         []⟩ 2).users ∧
    (⟨"boss", "pw", "owner", "", ""⟩ : Trail9.User) ∈
      Trail9.remove_staff [⟨"boss", "pw", "owner", "", ""⟩, ⟨"bob", "pw", "staff", "", ""⟩] 0 ∧
    ("boss", (⟨"h1", "owner"⟩ : Trail8.UserRec)) ∈
      Trail8.remove_staff [("boss", ⟨"h1", "owner"⟩), ("bob", ⟨"h2", "staff"⟩)] 0 :=
  ⟨(C10_staff_only_deletion.1
      ⟨[⟨1, "boss", "h1", "owner"⟩, ⟨2, "bob", "h2", "staff"⟩],
       [⟨1, 1, "2024-01-01 08:00:00", none⟩, ⟨2, 2, "2024-01-01 09:00:00", none⟩],
       []⟩ 2 (by decide) ⟨1, "boss", "h1", "owner"⟩ (by decide) rfl).1,
   C10_staff_only_deletion.2.1
      [⟨"boss", "pw", "owner", "", ""⟩, ⟨"bob", "pw", "staff", "", ""⟩] 0 (by decide)
      ⟨"boss", "pw", "owner", "", ""⟩ (by decide) rfl,
   C10_staff_only_deletion.2.2
      [("boss", ⟨"h1", "owner"⟩), ("bob", ⟨"h2", "staff"⟩)] 0 (by decide)
      ("boss", ⟨"h1", "owner"⟩) (by decide) rfl⟩
